import Mathlib

/-!
Shallow embedding of `logger.py` (monkey-net): the `Logger` training-loop
bookkeeping class and the `Visualizer` video-grid rendering class.

Conventions of the embedding:
* numpy float64 / Python float values are modelled as `ℚ` (all arithmetic the
  claims touch is exact on the inputs considered);
* the external `torch` model/optimizer objects are modelled by their
  `state_dict` value only (types `μ` and `σ`): `state_dict()` reads the value,
  `load_state_dict(d)` replaces it, `torch.save`/`torch.load` is the identity
  on the stored record;
* a Python call that raises (AttributeError, IndexError, ValueError,
  ZeroDivisionError) is modelled by `Option`/`none`;
* an imperative function that may mutate a caller-visible numpy array returns
  a pair: the final value of the caller's array, and the function's return
  value.  `np.copy` starts a fresh buffer, so writes after a copy do not show
  up in the first component.
-/

/-- Record written by `torch.save` in `Logger.save_cpk` and read back by
`Logger.load_cpk`: a dict with keys `model`, `optimizer`, `iter`.  The
`optimizer` field is an `Option` so that a dict lacking the key can be
expressed (`load_cpk` would raise `KeyError` on it when given an optimizer). -/
structure Checkpoint (μ σ : Type) where
  model : μ
  optimizer : Option σ
  iter : ℕ
deriving DecidableEq, Repr

/-- State of `Logger.__init__` (logger.py lines 10-23): report interval
`log_freq`, checkpoint interval `cpk_freq`, zero-pad width `fill_counter`,
the wrapped model state, the optional optimizer state, the current iteration
`it` (initially 0) and the loss buffer `loss_list` (initially empty).
The log directory and the opened log-file handle are filesystem objects and
are not part of the state; flushed report lines are returned as values. -/
structure Logger (μ σ : Type) where
  log_freq : ℕ
  cpk_freq : ℕ
  fill_counter : ℕ
  model : μ
  optimizer : Option σ
  it : ℕ
  loss_list : List (List ℚ)
deriving DecidableEq, Repr

/-- Side effects of one `Logger.log` call: the report line flushed to the log
file (as name/mean pairs, `none` when the report trigger did not fire) and
the checkpoint written (`none` when the checkpoint trigger did not fire). -/
structure LogEffects (μ σ : Type) where
  reported : Option (List (String × ℚ))
  saved : Option (Checkpoint μ σ)
deriving DecidableEq, Repr

/-- Column-wise mean of `np.array(loss_list).mean(axis=0)` (logger.py line 26)
for a rectangular non-empty list of rows: entry `j` is the mean of the `j`-th
entry of every row.  numpy errors on an empty buffer; `Logger.log` never
reaches that case (the buffer is appended to before any flush). -/
def colMeans : List (List ℚ) → List ℚ
  | [] => []
  | xs :: xss =>
    (List.range xs.length).map fun j =>
      (((xs :: xss).map fun row => row.getD j 0).sum) / ((xs :: xss).length : ℚ)

/-- `Logger.log_scores` (logger.py lines 25-33): computes the column-wise mean
of the loss buffer, pairs it with the given names (Python `zip` truncates to
the shorter list, as does `List.zip`), empties the buffer, and returns the
report line that was printed to the log file. -/
def log_scores {μ σ : Type} (loss_names : List String) (st : Logger μ σ) :
    List (String × ℚ) × Logger μ σ :=
  (loss_names.zip (colMeans st.loss_list), { st with loss_list := [] })

/-- `Logger.save_cpk` (logger.py lines 59-61): builds the dict
`{"model": model.state_dict(), "optimizer": optimizer.state_dict(), "iter": it}`
and writes it.  The attribute access `self.optimizer.state_dict()` is
unconditional, so when the logger was constructed without an optimizer
(`optimizer=None`) the call raises `AttributeError` — modelled as `none`. -/
def save_cpk {μ σ : Type} (st : Logger μ σ) : Option (Checkpoint μ σ) :=
  st.optimizer.map fun o => ⟨st.model, some o, st.it⟩

/-- `Logger.load_cpk` (logger.py lines 63-69): reads the checkpoint record,
loads `checkpoint['model']` into the model, loads `checkpoint['optimizer']`
into the optimizer when one is given (raising `KeyError`, modelled `none`,
if the record has no such key), and returns `checkpoint['iter']`.  The result
is (new model state, new optimizer state if an optimizer was given, iter). -/
def load_cpk {μ σ : Type} (checkpoint : Checkpoint μ σ) (model : μ)
    (optimizer : Option σ) : Option (μ × Option σ × ℕ) :=
  match optimizer with
  | none => some (checkpoint.model, none, checkpoint.iter)
  | some _ =>
    match checkpoint.optimizer with
    | none => none
    | some o => some (checkpoint.model, some o, checkpoint.iter)

/-- `Logger.log` (logger.py lines 78-90).  `names, values = list(zip(*loss_list))`
raises `ValueError` on an empty loss list; `it % self.log_freq` raises
`ZeroDivisionError` on a zero interval.  Otherwise: the iteration counter is
set to the argument `it`, the value projection of the loss list is appended
to the buffer, then if `it % log_freq == 0` the scores are flushed (and the
visualizations written — pure disk output, carried by `reported`), and if
`it % cpk_freq == 0` a checkpoint is saved (which raises, `none`, when no
optimizer is present, see `save_cpk`). -/
def log {μ σ : Type} (it : ℕ) (loss_list : List (String × ℚ)) (st : Logger μ σ) :
    Option (Logger μ σ × LogEffects μ σ) :=
  if loss_list.isEmpty then none
  else if st.log_freq = 0 ∨ st.cpk_freq = 0 then none
  else
    let st1 : Logger μ σ :=
      { st with it := it, loss_list := st.loss_list ++ [loss_list.map Prod.snd] }
    let scored := log_scores (loss_list.map Prod.fst) st1
    let rep : Option (List (String × ℚ)) :=
      if it % st.log_freq = 0 then some scored.1 else none
    let st2 : Logger μ σ := if it % st.log_freq = 0 then scored.2 else st1
    if it % st.cpk_freq = 0 then
      (save_cpk st2).map fun c => (st2, ⟨rep, some c⟩)
    else
      some (st2, ⟨rep, none⟩)

/-- A sequence of `Logger.log` calls, threading the logger state; `none` as
soon as one call raises. -/
def logRun {μ σ : Type} : List (ℕ × List (String × ℚ)) → Logger μ σ →
    Option (Logger μ σ)
  | [], st => some st
  | c :: cs, st => (log c.1 c.2 st).bind fun r => logRun cs r.1

/-- Number of `log` calls since the last flush, after processing the given
call list with report interval `f`, starting from `n0` buffered entries:
a call whose iteration is divisible by `f` flushes (resetting the count to 0
after its own append), any other call adds one entry. -/
def callsSinceFlush (f : ℕ) : ℕ → List (ℕ × List (String × ℚ)) → ℕ
  | n0, [] => n0
  | n0, c :: cs => callsSinceFlush f (if c.1 % f = 0 then 0 else n0 + 1) cs

/-! ## Visualizer

Arrays handled by `Visualizer` are channel-last after the transposes in
`visualize_transfer`/`visualize_reconstruction`: a `Batch` has shape
(batch, time, height, width, channel).  A pixel is the 3 channel values. -/

/-- One RGB pixel (3 channel values, floats in [0,1] before quantization). -/
abbrev Pixel : Type := ℚ × ℚ × ℚ

/-- One frame: height × width grid of pixels (list of rows). -/
abbrev Frame : Type := List (List Pixel)

/-- One video: time-indexed list of frames. -/
abbrev Video : Type := List Frame

/-- One batch of videos. -/
abbrev Batch : Type := List Video

/-- The fixed bright color `(1, 1, 1)` assigned to keypoint disks and borders. -/
def white : Pixel := (1, 1, 1)

/-- An all-zero pixel, used for concrete test arrays. -/
def black : Pixel := (0, 0, 0)

/-- `Visualizer.__init__` (logger.py lines 94-96): keypoint marker radius and
whether to overwrite frame borders when stitching columns. -/
structure Visualizer where
  kp_size : ℚ
  draw_border : Bool
deriving DecidableEq, Repr

/-- Map over a list together with the element index, starting at index `n`
(helper for embedding numpy fancy-index assignments along one axis). -/
def mapFrom {α β : Type} (f : ℕ → α → β) : ℕ → List α → List β
  | _, [] => []
  | n, a :: as => f n a :: mapFrom f (n + 1) as

/-- The assignment `videos[:, :, [0, -1]] = (1, 1, 1)` restricted to one
frame: every pixel of row 0 and of the last row becomes `white`. -/
def setRowBorder (frame : Frame) : Frame :=
  mapFrom
    (fun i row => if i = 0 ∨ i = frame.length - 1 then row.map fun _ => white else row)
    0 frame

/-- The assignment `videos[:, :, :, [0, -1]] = (1, 1, 1)` restricted to one
frame: in every row, pixel 0 and the last pixel become `white`. -/
def setColBorder (frame : Frame) : Frame :=
  frame.map fun row =>
    mapFrom (fun j p => if j = 0 ∨ j = row.length - 1 then white else p) 0 row

/-- `np.concatenate(list(videos), axis=1)` for a batch of equal-shape videos:
for each time index, the frames of all batch elements are stacked along the
height axis.  (numpy raises on mismatched shapes; `List.zipWith` truncates
instead, so theorems only consider equal-shape batches.) -/
def concatColumn : Batch → Video
  | [] => []
  | [v] => v
  | v :: vs => List.zipWith (fun a b => a ++ b) v (concatColumn vs)

/-- `Visualizer.create_video_column` (logger.py lines 110-114).  When
`draw_border` is set, the two fancy-index assignments overwrite the border
rows and columns of every frame of `videos` **in place** — no copy is taken,
so the caller's array is mutated.  Result: (final value of the caller's
`videos` argument, returned concatenation). -/
def create_video_column (vz : Visualizer) (videos : Batch) : Batch × Video :=
  let videos :=
    if vz.draw_border then videos.map fun v => v.map fun f => setColBorder (setRowBorder f)
    else videos
  (videos, concatColumn videos)

/-- The integers from `a` to `b` inclusive (empty when `b < a`). -/
def intRange (a b : ℤ) : List ℤ :=
  (List.range (b - a + 1).toNat).map fun k => a + (k : ℤ)

/-- `skimage.draw.circle(r, c, radius, shape)` = `ellipse(r, c, radius, radius,
shape)` with rotation 0: the integer pixels of the bounding box
`[⌈r-|radius|⌉, ⌊r+|radius|⌋] × [⌈c-|radius|⌋, ⌊c+|radius|⌋]` — clamped below
by 0 and above by `np.array(shape) - 1` — whose distance to the center is
less than the radius.  When `shape` is a 1-element tuple (as passed at
logger.py line 102, `shape=video_array.shape[1:2]`), numpy broadcasting clips
BOTH the row and the column upper bound by `shape[0] - 1`.  The disk test
`((pr-r)/rad)² + ((pc-c)/rad)² < 1` is written multiplied out so that a zero
radius yields no pixels, matching the float `inf`/`nan` comparison. -/
def draw_circle (r c radius : ℚ) (shape : List ℕ) : List (ℤ × ℤ) :=
  let rad := |radius|
  let ul : ℤ × ℤ := (max ⌈r - rad⌉ 0, max ⌈c - rad⌉ 0)
  let lr0 : ℤ × ℤ := (⌊r + rad⌋, ⌊c + rad⌋)
  let lr : ℤ × ℤ :=
    match shape with
    | [h] => (min lr0.1 ((h : ℤ) - 1), min lr0.2 ((h : ℤ) - 1))
    | [h, w] => (min lr0.1 ((h : ℤ) - 1), min lr0.2 ((w : ℤ) - 1))
    | _ => lr0
  (((intRange ul.1 lr.1).map fun pr => (intRange ul.2 lr.2).map fun pc => (pr, pc)).flatten).filter
    fun p => ((p.1 : ℚ) - r) ^ 2 + ((p.2 : ℚ) - c) ^ 2 < rad ^ 2

/-- Assignment of `white` to the single pixel `(pr, pc)` of a frame, with the
numpy bounds check of `video_array[i][rr, cc] = (1, 1, 1)`: out-of-range
indices raise `IndexError` (`none`).  `circle` only produces coordinates
≥ 0, so numpy's negative-index wrapping is never exercised and is modelled
as out-of-range as well. -/
def setPixelWhite (frame : Frame) (pr pc : ℤ) : Option Frame :=
  if 0 ≤ pr ∧ pr < (frame.length : ℤ) then
    if 0 ≤ pc ∧ pc < ((frame.getD pr.toNat []).length : ℤ) then
      some (frame.set pr.toNat ((frame.getD pr.toNat []).set pc.toNat white))
    else none
  else none

/-- The fancy-index assignment `video_array[i][rr, cc] = (1, 1, 1)` over a
coordinate list. -/
def setPixelsWhite (frame : Frame) (coords : List (ℤ × ℤ)) : Option Frame :=
  coords.foldlM (fun fr p => setPixelWhite fr p.1 p.2) frame

/-- The inner loop of `Visualizer.draw_video_with_kp` for one frame: for each
keypoint `kp`, rasterize `circle(kp[1], kp[0], kp_size, shape=(H,))` and
assign `white` to the resulting pixels.  `H` is `video_array.shape[1]`. -/
def drawFrame (vz : Visualizer) (H : ℕ) (frame : Frame) (kps : List (ℚ × ℚ)) :
    Option Frame :=
  kps.foldlM (fun fr kp => setPixelsWhite fr (draw_circle kp.2 kp.1 vz.kp_size [H])) frame

/-- `shape[1]` of a video array of shape (time, H, W, C): the height. -/
def shape1 (video : Video) : ℕ :=
  match video with
  | [] => 0
  | f :: _ => f.length

/-- `Visualizer.draw_video_with_kp` (logger.py lines 98-104).  The input is
copied (`np.copy`) and all disk writes go to the copy, so the first component
(the final value of the caller's array) is the unchanged input.  The loop
reads `kp_array[i]` for every frame index `i`, raising `IndexError` (`none`)
when `kp_array` is shorter than the video; a disk write out of the frame's
column range also raises (see `circle` and `setPixelWhite`). -/
def draw_video_with_kp (vz : Visualizer) (video : Video)
    (kp_array : List (List (ℚ × ℚ))) : Video × Option Video :=
  let H := shape1 video
  let result : Option Video :=
    if video.length ≤ kp_array.length then
      (video.zip kp_array).mapM fun p => drawFrame vz H p.1 p.2
    else none
  (video, result)

/-- `x.astype(np.uint8)` for a float `x`: the C cast truncates toward zero
and keeps the low byte.  For the values in `[0, 256)` produced by the
visualizers this is plain truncation; behavior elsewhere is
platform-dependent in numpy and the wrap below is only a total-function
completion. -/
def astype_uint8 (x : ℚ) : ℕ :=
  ((if 0 ≤ x then ⌊x⌋ else ⌈x⌉) % 256).toNat

/-- The final conversion `(255 * image).astype(np.uint8)` applied to one
pixel (logger.py lines 135 and 151). -/
def quantizePixel (p : Pixel) : ℕ × ℕ × ℕ :=
  (astype_uint8 (255 * p.1), astype_uint8 (255 * p.2.1), astype_uint8 (255 * p.2.2))

/-- The conversion `(255 * image).astype(np.uint8)` over a whole frame
sequence. -/
def quantizeVideo (v : Video) : List (List (List (ℕ × ℕ × ℕ))) :=
  v.map fun f => f.map fun row => row.map quantizePixel

/-- Elementwise `p * 0.5 + q * 0.5` on pixels (logger.py line 147). -/
def blendPixel (p q : Pixel) : Pixel :=
  (p.1 * (1 / 2) + q.1 * (1 / 2), p.2.1 * (1 / 2) + q.2.1 * (1 / 2),
    p.2.2 * (1 / 2) + q.2.2 * (1 / 2))

/-- `diff_batch = gt_video_batch * 0.5 + appearance_deformed_batch * 0.5`:
elementwise blend of two equal-shape batches. -/
def blendBatch (a b : Batch) : Batch :=
  List.zipWith (List.zipWith (List.zipWith (List.zipWith blendPixel))) a b

/-- `np.concatenate(out, axis=2)` (logger.py line 123): the columns are glued
side by side along the width axis, frame by frame, row by row. -/
def concatWidth : List Video → Video
  | [] => []
  | [v] => v
  | v :: vs => List.zipWith (List.zipWith (fun a b => a ++ b)) v (concatWidth vs)

/-- `Visualizer.create_image_grid` (logger.py lines 116-123) for plain (non
keypoint) arguments, as called by both visualizers: each argument batch is
stitched into a column and the columns are concatenated along the width. -/
def create_image_grid (vz : Visualizer) (args : List Batch) : Video :=
  concatWidth (args.map fun a => (create_video_column vz a).2)

/-- `Visualizer.visualize_reconstruction` (logger.py lines 138-152) on the
channel-last arrays obtained from the torch tensors (`.data.cpu().numpy()`
then `np.transpose(·, [0, 2, 3, 4, 1])`): grid of ground truth, prediction,
deformed appearance, and the 50/50 blend of ground truth and deformed, then
8-bit conversion by `(255 * image).astype(np.uint8)`. -/
def visualize_reconstruction (vz : Visualizer) (gt pred deformed : Batch) :
    List (List (List (ℕ × ℕ × ℕ))) :=
  quantizeVideo (create_image_grid vz [gt, pred, deformed, blendBatch gt deformed])

/-- `Visualizer.visualize_transfer` (logger.py lines 125-136) on the
channel-last arrays: grid of the appearance source (`second_video_array`),
the motion source (`first_video_array`) and the predicted transfer, then the
same 8-bit conversion. -/
def visualize_transfer (vz : Visualizer) (motion appearance pred : Batch) :
    List (List (List (ℕ × ℕ × ℕ))) :=
  quantizeVideo (create_image_grid vz [appearance, motion, pred])

/-! ## Concrete instances used by the individual claim checks -/

/-- A logger constructed without an optimizer (`Logger(model, log_dir)`),
model state 7, at iteration 5. -/
def c1NoOpt : Logger ℕ ℕ := ⟨100, 1000, 8, 7, none, 5, []⟩

/-- The same logger with optimizer state 3 supplied. -/
def c1WithOpt : Logger ℕ ℕ := ⟨100, 1000, 8, 7, some 3, 5, []⟩

/-- A batch of one single-frame 2×2 all-zero video. -/
def c2Videos : Batch := [[[[black, black], [black, black]]]]

/-- A video of one 1×1 all-zero frame. -/
def c3Video : Video := [[[black]]]

/-- A 4×2 (height 4, width 2) all-zero frame. -/
def c4Frame : Frame :=
  [[black, black], [black, black], [black, black], [black, black]]

/-- A video consisting of the single 4×2 frame. -/
def c4Video : Video := [c4Frame]

/-- A fresh logger with report interval 100 and checkpoint interval 100. -/
def c5Logger : Logger ℕ ℕ := ⟨100, 100, 8, 0, some 0, 0, []⟩

/-- A fresh logger with report interval 2 and checkpoint interval 1000. -/
def c6Logger : Logger ℕ ℕ := ⟨2, 1000, 8, 0, some 0, 0, []⟩

/-- A fresh logger with report interval 2 and checkpoint interval 1000. -/
def c7Logger : Logger ℕ ℕ := ⟨2, 1000, 8, 0, some 0, 0, []⟩

/-- A fresh logger with report interval 2 and checkpoint interval 1000. -/
def c10Logger : Logger ℕ ℕ := ⟨2, 1000, 8, 0, some 0, 0, []⟩

/-- The report line computed by the flushing call in the C10 witness. -/
def colMeansLine10 : List (String × ℚ) :=
  ["a", "b"].zip (colMeans [[1, 3]])

/-! ## Helper lemmas -/

lemma mapFrom_length {α β : Type} (f : ℕ → α → β) :
    ∀ (n : ℕ) (l : List α), (mapFrom f n l).length = l.length := by
  intro n l
  induction l generalizing n with
  | nil => rfl
  | cons a as ih => simp [mapFrom, ih]

lemma mapFrom_getElem? {α β : Type} (f : ℕ → α → β) :
    ∀ (l : List α) (n i : ℕ), (mapFrom f n l)[i]? = (l[i]?).map fun a => f (n + i) a := by
  intro l
  induction l with
  | nil => intro n i; simp [mapFrom]
  | cons a as ih =>
    intro n i
    cases i with
    | zero => simp [mapFrom]
    | succ i =>
      simp only [mapFrom, List.getElem?_cons_succ, ih (n + 1) i]
      have : n + 1 + i = n + (i + 1) := by omega
      rw [this]

lemma zip_getElem? {α β : Type} :
    ∀ (l : List α) (l2 : List β) (i : ℕ),
      (l.zip l2)[i]? = (l[i]?).bind fun a => (l2[i]?).map fun b => (a, b) := by
  intro l
  induction l with
  | nil => intro l2 i; simp
  | cons a as ih =>
    intro l2 i
    cases l2 with
    | nil => simp
    | cons b bs =>
      cases i with
      | zero => simp
      | succ i => simpa using ih bs i

lemma mapM_option_spec {α β : Type} (g : α → Option β) :
    ∀ (l : List α) (out : List β), l.mapM g = some out →
      out.length = l.length ∧ ∀ i : ℕ, (l[i]?).bind g = out[i]? := by
  intro l
  induction l with
  | nil =>
    intro out h
    simp only [List.mapM_nil, pure, Option.some.injEq] at h
    subst h
    simp
  | cons a as ih =>
    intro out h
    rw [List.mapM_cons] at h
    rcases Option.bind_eq_some.mp h with ⟨b, hb, h2⟩
    rcases Option.bind_eq_some.mp h2 with ⟨bs, hbs, h3⟩
    simp only [pure, Option.some.injEq] at h3
    subst h3
    obtain ⟨hlen, hget⟩ := ih bs hbs
    refine ⟨by simp [hlen], ?_⟩
    intro i
    cases i with
    | zero => simpa using hb
    | succ i => simpa using hget i

lemma log_spec {μ σ : Type} {it : ℕ} {losses : List (String × ℚ)}
    {st st' : Logger μ σ} {eff : LogEffects μ σ}
    (h : log it losses st = some (st', eff)) :
    st'.log_freq = st.log_freq ∧ st'.cpk_freq = st.cpk_freq ∧ st'.it = it ∧
    st'.loss_list =
      (if it % st.log_freq = 0 then [] else st.loss_list ++ [losses.map Prod.snd]) ∧
    eff.reported =
      (if it % st.log_freq = 0 then
        some ((losses.map Prod.fst).zip
          (colMeans (st.loss_list ++ [losses.map Prod.snd])))
      else none) ∧
    (eff.saved.isSome ↔ it % st.cpk_freq = 0) := by
  by_cases hemp : losses.isEmpty
  · simp [log, hemp] at h
  by_cases hz : st.log_freq = 0 ∨ st.cpk_freq = 0
  · simp [log, hemp, hz] at h
  by_cases hfire : it % st.log_freq = 0 <;> by_cases hcpk : it % st.cpk_freq = 0 <;>
    simp only [log, hemp, hz, hfire, hcpk, log_scores, if_true, if_false,
      Bool.false_eq_true, ite_true, ite_false, or_false, false_or] at h
  · rcases Option.map_eq_some'.mp h with ⟨c, _, hc⟩
    rcases hc with ⟨rfl, rfl⟩
    simp [hfire, hcpk]
  · rcases h with ⟨rfl, rfl⟩
    simp [hfire, hcpk]
  · rcases Option.map_eq_some'.mp h with ⟨c, _, hc⟩
    rcases hc with ⟨rfl, rfl⟩
    simp [hfire, hcpk]
  · rcases h with ⟨rfl, rfl⟩
    simp [hfire, hcpk]

lemma logRun_length {μ σ : Type} :
    ∀ (calls : List (ℕ × List (String × ℚ))) (st stf : Logger μ σ),
      logRun calls st = some stf →
      stf.loss_list.length = callsSinceFlush st.log_freq st.loss_list.length calls := by
  intro calls
  induction calls with
  | nil =>
    intro st stf h
    simp only [logRun, Option.some.injEq] at h
    subst h
    rfl
  | cons c cs ih =>
    intro st stf h
    simp only [logRun] at h
    rcases Option.bind_eq_some.mp h with ⟨r, hr, hrun⟩
    rcases r with ⟨st1, eff1⟩
    obtain ⟨hlf, _, _, hbuf, _, _⟩ := log_spec hr
    have hrec := ih st1 stf hrun
    rw [callsSinceFlush, ← hlf, hrec, hbuf]
    by_cases hfire : c.1 % st.log_freq = 0 <;> simp [hfire, hlf]

/-! ## Claim theorems -/

/-- C1.  The claim says `save_cpk` still succeeds without an optimizer,
writing a record with keys `model` and `iter` only.  The code instead
evaluates `self.optimizer.state_dict()` unconditionally (logger.py line 60),
raising `AttributeError` when the logger was constructed without an optimizer
(`none` in the model); with an optimizer present the record does contain the
optimizer state.  The checkpoint lacking the `optimizer` key is never
produced. -/
theorem save_cpk_requires_optimizer :
    save_cpk c1NoOpt = none ∧
    save_cpk c1WithOpt = some ⟨7, some 3, 5⟩ :=
  ⟨rfl, rfl⟩

/-- C5, counterexample.  The stored iteration counter is whatever the caller
passes: logging iteration 2 and then iteration 1 (no trigger fires, report and
checkpoint intervals are 100) leaves the counter at 1 after having been at 2,
so it is not monotonically non-decreasing across call sequences. -/
theorem log_iteration_not_monotone :
    ((log 2 [("a", 1)] c5Logger).map fun r => r.1.it) = some 2 ∧
    (((log 2 [("a", 1)] c5Logger).bind fun r => log 1 [("a", 1)] r.1).map
      fun r => r.1.it) = some 1 := by
  decide

/-- C5, amended.  After a successful `log` call the stored iteration counter
equals the iteration argument of that call (hence it is non-decreasing exactly
when the caller passes non-decreasing iterations), and the two triggers are
determined solely by that argument and the fixed intervals: the report fires
iff `it % log_freq == 0` and the checkpoint iff `it % cpk_freq == 0`. -/
theorem log_iteration_and_triggers {μ σ : Type} (st st' : Logger μ σ)
    (it : ℕ) (losses : List (String × ℚ)) (eff : LogEffects μ σ)
    (h : log it losses st = some (st', eff)) :
    st'.it = it ∧
    (eff.reported.isSome ↔ it % st.log_freq = 0) ∧
    (eff.saved.isSome ↔ it % st.cpk_freq = 0) := by
  obtain ⟨_, _, hit, _, hrep, hsav⟩ := log_spec h
  refine ⟨hit, ?_, hsav⟩
  rw [hrep]
  by_cases hfire : it % st.log_freq = 0 <;> simp [hfire]

/-- Witness for C5's amended theorem at a concrete call: iteration 7 on a
fresh logger with intervals 100/100. -/
theorem log_iteration_and_triggers_witness :
    (⟨100, 100, 8, 0, some 0, 7, [[1]]⟩ : Logger ℕ ℕ).it = 7 ∧
    ((⟨none, none⟩ : LogEffects ℕ ℕ).reported.isSome ↔ 7 % c5Logger.log_freq = 0) ∧
    ((⟨none, none⟩ : LogEffects ℕ ℕ).saved.isSome ↔ 7 % c5Logger.cpk_freq = 0) :=
  log_iteration_and_triggers c5Logger _ 7 [("a", 1)] _ (by decide)

/-- C6.  Starting from an empty buffer, after any successful sequence of
`log` calls the loss buffer length equals the number of calls since the last
flush; and each single successful call leaves the buffer empty when its
iteration is divisible by the report interval, and grown by exactly one entry
otherwise. -/
theorem loss_buffer_length_invariant {μ σ : Type} (st0 stf : Logger μ σ)
    (calls : List (ℕ × List (String × ℚ)))
    (hinit : st0.loss_list = []) (hrun : logRun calls st0 = some stf) :
    stf.loss_list.length = callsSinceFlush st0.log_freq 0 calls ∧
    ∀ (st st' : Logger μ σ) (it : ℕ) (losses : List (String × ℚ))
      (eff : LogEffects μ σ), log it losses st = some (st', eff) →
      st'.loss_list.length =
        if it % st.log_freq = 0 then 0 else st.loss_list.length + 1 := by
  constructor
  · have h := logRun_length calls st0 stf hrun
    rwa [hinit] at h
  · intro st st' it losses eff h
    obtain ⟨_, _, _, hbuf, _, _⟩ := log_spec h
    rw [hbuf]
    by_cases hfire : it % st.log_freq = 0 <;> simp [hfire]

/-- Witness for C6 at a concrete run: calls at iterations 1 and 2 with report
interval 2 — the second call flushes, leaving an empty buffer. -/
theorem loss_buffer_length_invariant_witness :
    (⟨2, 1000, 8, 0, some 0, 2, []⟩ : Logger ℕ ℕ).loss_list.length =
      callsSinceFlush c6Logger.log_freq 0 [(1, [("a", 1)]), (2, [("a", 2)])] ∧
    ∀ (st st' : Logger ℕ ℕ) (it : ℕ) (losses : List (String × ℚ))
      (eff : LogEffects ℕ ℕ), log it losses st = some (st', eff) →
      st'.loss_list.length =
        if it % st.log_freq = 0 then 0 else st.loss_list.length + 1 :=
  loss_buffer_length_invariant c6Logger _ [(1, [("a", 1)]), (2, [("a", 2)])]
    rfl (by decide)

/-- C7.  With report interval 2, logging `[("a",1),("b",3)]` at iteration 1
and `[("a",3),("b",5)]` at iteration 2 reports the column-wise means paired
with the names in order: a=2, b=4. -/
theorem report_means_example :
    (((log 1 [("a", 1), ("b", 3)] c7Logger).bind fun r =>
        log 2 [("a", 3), ("b", 5)] r.1).map fun r => r.2.reported) =
      some (some [("a", 2), ("b", 4)]) := by
  have hcm : colMeans [[(1 : ℚ), 3], [3, 5]] = [2, 4] := by
    norm_num [colMeans, List.range_succ]
  have h1 : log 1 [("a", 1), ("b", 3)] c7Logger =
      some (⟨2, 1000, 8, 0, some 0, 1, [[1, 3]]⟩, ⟨none, none⟩) := by
    decide
  have h2 : log 2 [("a", 3), ("b", 5)]
      (⟨2, 1000, 8, 0, some 0, 1, [[1, 3]]⟩ : Logger ℕ ℕ) =
      some (⟨2, 1000, 8, 0, some 0, 2, []⟩, ⟨some [("a", 2), ("b", 4)], none⟩) := by
    simp [log, log_scores, hcm]
  simp [h1, h2]

/-- C8.  Checkpoint round-trip: for every model state, optimizer state and
iteration, `save_cpk` writes the record `{model, optimizer, iter}` and
`load_cpk` on that record returns the saved iteration and restores the model
state (and the optimizer state when an optimizer is passed) exactly. -/
theorem checkpoint_roundtrip {μ σ : Type} (m m2 : μ) (o o2 : σ)
    (i lf cf fc : ℕ) (buf : List (List ℚ)) :
    save_cpk (⟨lf, cf, fc, m, some o, i, buf⟩ : Logger μ σ) = some ⟨m, some o, i⟩ ∧
    load_cpk (⟨m, some o, i⟩ : Checkpoint μ σ) m2 (some o2) = some (m, some o, i) ∧
    load_cpk (⟨m, some o, i⟩ : Checkpoint μ σ) m2 none = some (m, none, i) :=
  ⟨rfl, rfl, rfl⟩

/-- C10.  Whenever the report branch of `log` runs (`it % log_freq == 0`),
the buffer handed to `log_scores` is `loss_list ++ [values]` — the append at
logger.py line 82 precedes the test at line 84 — which is never empty, so the
empty-buffer mean of `colMeans` is unreachable through `log`. -/
theorem log_scores_buffer_nonempty {μ σ : Type} (st st' : Logger μ σ)
    (it : ℕ) (losses : List (String × ℚ)) (eff : LogEffects μ σ)
    (h : log it losses st = some (st', eff)) (hfire : it % st.log_freq = 0) :
    st.loss_list ++ [losses.map Prod.snd] ≠ [] ∧
    eff.reported = some ((losses.map Prod.fst).zip
      (colMeans (st.loss_list ++ [losses.map Prod.snd]))) := by
  obtain ⟨_, _, _, _, hrep, _⟩ := log_spec h
  exact ⟨by simp, by rwa [if_pos hfire] at hrep⟩

/-- Witness for C10 at a concrete flushing call: iteration 2, report
interval 2. -/
theorem log_scores_buffer_nonempty_witness :
    c10Logger.loss_list ++ [[("a", (1 : ℚ)), ("b", 3)].map Prod.snd] ≠ [] ∧
    (⟨some (colMeansLine10), none⟩ : LogEffects ℕ ℕ).reported =
      some (([("a", (1 : ℚ)), ("b", 3)].map Prod.fst).zip
        (colMeans (c10Logger.loss_list ++ [[("a", (1 : ℚ)), ("b", 3)].map Prod.snd]))) :=
  log_scores_buffer_nonempty c10Logger ⟨2, 1000, 8, 0, some 0, 2, []⟩ 2
    [("a", 1), ("b", 3)] ⟨some colMeansLine10, none⟩
    (by simp [log, log_scores, c10Logger, colMeansLine10]) (by decide)

/-- C9.  The 8-bit conversions at logger.py lines 135 and 151 are
`(255 * image).astype(np.uint8)`: each channel value `v` in `[0,1]` becomes
the integer part of `255*v` (the C cast truncates toward zero; on these
non-negative values that is the floor, not rounding to nearest), and both
`visualize_reconstruction` and `visualize_transfer` apply exactly this
per-pixel conversion to their stitched grid. -/
theorem quantization_truncates (v : ℚ) (h0 : 0 ≤ v) (h1 : v ≤ 1) :
    astype_uint8 (255 * v) = (⌊255 * v⌋).toNat ∧
    ∀ (vz : Visualizer) (gt pred deformed motion appearance : Batch),
      visualize_reconstruction vz gt pred deformed =
        quantizeVideo (create_image_grid vz [gt, pred, deformed, blendBatch gt deformed]) ∧
      visualize_transfer vz motion appearance pred =
        quantizeVideo (create_image_grid vz [appearance, motion, pred]) := by
  refine ⟨?_, fun vz gt pred deformed motion appearance => ⟨rfl, rfl⟩⟩
  have hv : (0 : ℚ) ≤ 255 * v := by positivity
  have hfl0 : (0 : ℤ) ≤ ⌊255 * v⌋ := Int.floor_nonneg.mpr hv
  have hfl : ⌊255 * v⌋ < 256 := by
    have h255 : (255 : ℚ) * v ≤ 255 := by nlinarith
    have h2 := Int.floor_le_floor h255
    have h3 : ⌊(255 : ℚ)⌋ = 255 := by norm_num
    omega
  rw [astype_uint8, if_pos hv, Int.emod_eq_of_lt hfl0 hfl]

/-- Witness for C9 at `v = 1/2`: `255 * v = 127.5` quantizes to 127 (the
floor), where rounding to nearest would give 128. -/
theorem quantization_truncates_witness :
    astype_uint8 (255 * (1 / 2 : ℚ)) = (⌊255 * (1 / 2 : ℚ)⌋).toNat ∧
    ∀ (vz : Visualizer) (gt pred deformed motion appearance : Batch),
      visualize_reconstruction vz gt pred deformed =
        quantizeVideo (create_image_grid vz [gt, pred, deformed, blendBatch gt deformed]) ∧
      visualize_transfer vz motion appearance pred =
        quantizeVideo (create_image_grid vz [appearance, motion, pred]) :=
  quantization_truncates (1 / 2) (by norm_num) (by norm_num)

lemma getElem?_of_lt {α : Type} (l : List α) (b : ℕ) (d : α) (h : b < l.length) :
    l[b]? = some (l.getD b d) := by
  rw [List.getElem?_eq_getElem h, List.getD_eq_getElem?_getD,
    List.getElem?_eq_getElem h]
  rfl

lemma map_getD_of_lt {α β : Type} (F : α → β) (l : List α) (b : ℕ)
    (d : β) (d2 : α) (h : b < l.length) :
    (l.map F).getD b d = F (l.getD b d2) := by
  have hm : (l.map F)[b]? = some (F (l.getD b d2)) := by
    rw [List.getElem?_map, getElem?_of_lt l b d2 h]
    rfl
  rw [List.getD_eq_getElem?_getD, hm]
  rfl

lemma borderFrame_getElem? (fr : Frame) (i j : ℕ) (hi : i < fr.length)
    (hj : j < (fr.getD i []).length) :
    ((setColBorder (setRowBorder fr)).getD i [])[j]? =
      some (if i = 0 ∨ i = fr.length - 1 ∨ j = 0 ∨ j = (fr.getD i []).length - 1
        then white else (fr.getD i []).getD j white) := by
  have hrow : fr[i]? = some (fr.getD i []) := getElem?_of_lt fr i [] hi
  have hr1 : (setRowBorder fr)[i]? =
      some (if i = 0 ∨ i = fr.length - 1
        then (fr.getD i []).map fun _ => white else fr.getD i []) := by
    rw [setRowBorder, mapFrom_getElem?, hrow]
    simp
  have hlen1 : i < (setRowBorder fr).length := by
    rw [setRowBorder, mapFrom_length]; exact hi
  have hcol : (setColBorder (setRowBorder fr)).getD i [] =
      (fun row => mapFrom (fun j p => if j = 0 ∨ j = row.length - 1 then white else p) 0 row)
        ((setRowBorder fr).getD i []) := by
    rw [setColBorder]
    exact map_getD_of_lt _ _ i [] [] hlen1
  have hgd1 : (setRowBorder fr).getD i [] =
      (if i = 0 ∨ i = fr.length - 1
        then (fr.getD i []).map fun _ => white else fr.getD i []) := by
    rw [List.getD_eq_getElem?_getD, hr1]
    rfl
  rw [hcol, hgd1]
  by_cases hR : i = 0 ∨ i = fr.length - 1
  · rw [if_pos hR]
    rw [mapFrom_getElem?]
    have : ((fr.getD i []).map fun _ => white)[j]? = some white := by
      rw [List.getElem?_map, getElem?_of_lt (fr.getD i []) j white hj]
      rfl
    rw [this]
    simp only [Option.map_some', Nat.zero_add, List.length_map]
    rcases hR with h | h <;> simp [h]
  · rw [if_neg hR]
    rw [mapFrom_getElem?, getElem?_of_lt (fr.getD i []) j white hj]
    simp only [Option.map_some', Nat.zero_add, Option.some.injEq]
    rw [not_or] at hR
    simp [hR.1, hR.2]

/-- C2, counterexample.  `create_video_column` with borders enabled mutates
the caller's array: on a batch of one single-frame 2×2 zero video, the
caller's array is different after the call (its border pixels — here all four
pixels — were overwritten in place; logger.py lines 112-113 assign into
`videos` without taking any copy). -/
theorem create_video_column_mutates_input :
    (create_video_column ⟨2, true⟩ c2Videos).1 ≠ c2Videos := by
  decide

/-- C2, amended.  With borders enabled, `create_video_column` overwrites the
first/last row and first/last column pixels of every frame of the caller's
array in place (no working copy is taken): after the call, pixel `(i, j)` of
any frame holds the fixed bright color when it lies on the border and its
original value otherwise. -/
theorem create_video_column_border_overwrite (vz : Visualizer) (videos : Batch)
    (b t i j : ℕ) (hb : vz.draw_border = true)
    (h1 : b < videos.length) (h2 : t < (videos.getD b []).length)
    (h3 : i < ((videos.getD b []).getD t []).length)
    (h4 : j < (((videos.getD b []).getD t []).getD i []).length) :
    ((((create_video_column vz videos).1.getD b []).getD t []).getD i [])[j]? =
      some (if i = 0 ∨ i = ((videos.getD b []).getD t []).length - 1 ∨
              j = 0 ∨ j = (((videos.getD b []).getD t []).getD i []).length - 1
            then white
            else (((videos.getD b []).getD t []).getD i []).getD j white) := by
  have hout : (create_video_column vz videos).1 =
      videos.map fun v => v.map fun f => setColBorder (setRowBorder f) := by
    simp [create_video_column, hb]
  rw [hout]
  rw [map_getD_of_lt _ videos b [] [] h1]
  rw [map_getD_of_lt _ (videos.getD b []) t [] [] h2]
  exact borderFrame_getElem? ((videos.getD b []).getD t []) i j h3 h4

/-- Witness for C2's amended theorem at the top-left pixel of the concrete
2×2 batch: a border pixel, overwritten with the bright color. -/
theorem create_video_column_border_overwrite_witness :
    ((((create_video_column ⟨2, true⟩ c2Videos).1.getD 0 []).getD 0 []).getD 0 [])[0]? =
      some (if 0 = 0 ∨ 0 = ((c2Videos.getD 0 []).getD 0 []).length - 1 ∨
              0 = 0 ∨ 0 = (((c2Videos.getD 0 []).getD 0 []).getD 0 []).length - 1
            then white
            else (((c2Videos.getD 0 []).getD 0 []).getD 0 []).getD 0 white) :=
  create_video_column_border_overwrite ⟨2, true⟩ c2Videos 0 0 0 0 rfl
    (by decide) (by decide) (by decide) (by decide)

lemma setPixelWhite_shape {fr fr2 : Frame} {pr pc : ℤ}
    (h : setPixelWhite fr pr pc = some fr2) :
    fr2.length = fr.length ∧
      ∀ j : ℕ, (fr2[j]?).map List.length = (fr[j]?).map List.length := by
  rw [setPixelWhite] at h
  split_ifs at h with hA hB
  · rw [Option.some.injEq] at h
    subst h
    refine ⟨List.length_set fr _ _, fun j => ?_⟩
    by_cases hj : pr.toNat = j
    · subst hj
      have hlt : pr.toNat < fr.length := by omega
      rw [List.getElem?_set, if_pos rfl, if_pos hlt,
        getElem?_of_lt fr pr.toNat [] hlt]
      simp [List.length_set]
    · rw [List.getElem?_set, if_neg hj]

lemma foldlM_option_shape {α : Type} (step : Frame → α → Option Frame)
    (hstep : ∀ (fr : Frame) (a : α) (fr2 : Frame), step fr a = some fr2 →
      fr2.length = fr.length ∧
        ∀ j : ℕ, (fr2[j]?).map List.length = (fr[j]?).map List.length) :
    ∀ (l : List α) (fr fr2 : Frame), l.foldlM step fr = some fr2 →
      fr2.length = fr.length ∧
        ∀ j : ℕ, (fr2[j]?).map List.length = (fr[j]?).map List.length := by
  intro l
  induction l with
  | nil =>
    intro fr fr2 h
    simp only [List.foldlM_nil, pure, Option.some.injEq] at h
    subst h
    exact ⟨rfl, fun j => rfl⟩
  | cons a as ih =>
    intro fr fr2 h
    rw [List.foldlM_cons] at h
    rcases Option.bind_eq_some.mp h with ⟨fr1, h1, h2⟩
    obtain ⟨l1, g1⟩ := hstep fr a fr1 h1
    obtain ⟨l2, g2⟩ := ih fr1 fr2 h2
    exact ⟨l2.trans l1, fun j => (g2 j).trans (g1 j)⟩

lemma setPixelsWhite_shape {fr fr2 : Frame} {coords : List (ℤ × ℤ)}
    (h : setPixelsWhite fr coords = some fr2) :
    fr2.length = fr.length ∧
      ∀ j : ℕ, (fr2[j]?).map List.length = (fr[j]?).map List.length :=
  foldlM_option_shape _ (fun _ _ _ hs => setPixelWhite_shape hs) coords fr fr2 h

lemma drawFrame_shape {vz : Visualizer} {H : ℕ} {fr fr2 : Frame}
    {kps : List (ℚ × ℚ)} (h : drawFrame vz H fr kps = some fr2) :
    fr2.length = fr.length ∧
      ∀ j : ℕ, (fr2[j]?).map List.length = (fr[j]?).map List.length :=
  foldlM_option_shape _ (fun _ _ _ hs => setPixelsWhite_shape hs) kps fr fr2 h

lemma drawFrame_nil (vz : Visualizer) (H : ℕ) (fr : Frame) :
    drawFrame vz H fr [] = some fr := rfl

/-- C3.  `draw_video_with_kp` copies its input (`np.copy`, logger.py line 99)
and draws on the copy only, so the caller's array is unchanged; whenever the
call returns an array, it has the same time/height/width shape as the input
(the pixel type — the dtype — is fixed by the embedding), and every frame
whose keypoint list is empty equals the corresponding input frame pixel for
pixel. -/
theorem draw_video_with_kp_pure (vz : Visualizer) (video : Video)
    (kp_array : List (List (ℚ × ℚ))) (out : Video)
    (h : (draw_video_with_kp vz video kp_array).2 = some out) :
    (draw_video_with_kp vz video kp_array).1 = video ∧
    out.length = video.length ∧
    (∀ i : ℕ, (out.getD i []).length = (video.getD i []).length) ∧
    (∀ i j : ℕ,
      ((out.getD i []).getD j []).length = ((video.getD i []).getD j []).length) ∧
    (∀ i : ℕ, kp_array[i]? = some [] → out[i]? = video[i]?) := by
  refine ⟨rfl, ?_⟩
  simp only [draw_video_with_kp] at h
  split_ifs at h with hlen
  have hspec := mapM_option_spec
    (fun p : Frame × List (ℚ × ℚ) => drawFrame vz (shape1 video) p.1 p.2)
    (video.zip kp_array) out h
  obtain ⟨hlen2, hget⟩ := hspec
  have hzlen : (video.zip kp_array).length = video.length := by
    rw [List.length_zip]
    exact min_eq_left hlen
  have houtlen : out.length = video.length := by rw [hlen2, hzlen]
  have hframe : ∀ i : ℕ, i < video.length →
      drawFrame vz (shape1 video) (video.getD i []) (kp_array.getD i []) =
        out[i]? := by
    intro i hi
    have h1 := hget i
    rw [zip_getElem?, getElem?_of_lt video i [] hi,
      getElem?_of_lt kp_array i [] (lt_of_lt_of_le hi hlen)] at h1
    simpa using h1
  have hshape : ∀ i : ℕ, i < video.length →
      (out.getD i []).length = (video.getD i []).length ∧
      ∀ j : ℕ, ((out.getD i [])[j]?).map List.length =
        ((video.getD i [])[j]?).map List.length := by
    intro i hi
    have h1 := hframe i hi
    have hio : i < out.length := by omega
    rw [getElem?_of_lt out i [] hio] at h1
    exact drawFrame_shape h1
  refine ⟨houtlen, ?_, ?_, ?_⟩
  · intro i
    by_cases hi : i < video.length
    · exact (hshape i hi).1
    · rw [List.getD_eq_default out [] (by omega), List.getD_eq_default video [] (by omega)]
  · intro i j
    by_cases hi : i < video.length
    · obtain ⟨hl, hr⟩ := hshape i hi
      have h2 := hr j
      by_cases hj : j < (video.getD i []).length
      · rw [getElem?_of_lt (video.getD i []) j [] hj,
          getElem?_of_lt (out.getD i []) j [] (by omega)] at h2
        simpa using h2
      · rw [List.getD_eq_default (out.getD i []) [] (by omega),
          List.getD_eq_default (video.getD i []) [] (by omega)]
    · rw [List.getD_eq_default out [] (by omega), List.getD_eq_default video [] (by omega)]
  · intro i hkp
    by_cases hi : i < video.length
    · have h1 := hframe i hi
      have hkd : kp_array.getD i [] = [] := by
        rw [List.getD_eq_getElem?_getD, hkp]
        rfl
      rw [hkd, drawFrame_nil] at h1
      rw [← h1, getElem?_of_lt video i [] hi]
    · rw [List.getElem?_eq_none (l := out) (by omega),
        List.getElem?_eq_none (l := video) (by omega)]

/-- Witness for C3 on a 1-frame 1×1 video with an empty keypoint list: the
call succeeds and returns the input unchanged. -/
theorem draw_video_with_kp_pure_witness :
    (draw_video_with_kp ⟨2, true⟩ c3Video [[]]).1 = c3Video ∧
    c3Video.length = c3Video.length ∧
    (∀ i : ℕ, (c3Video.getD i []).length = (c3Video.getD i []).length) ∧
    (∀ i j : ℕ, ((c3Video.getD i []).getD j []).length =
      ((c3Video.getD i []).getD j []).length) ∧
    (∀ i : ℕ, [(∅ : List (ℚ × ℚ))][i]? = some [] → c3Video[i]? = c3Video[i]?) :=
  draw_video_with_kp_pure ⟨2, true⟩ c3Video [[]] c3Video (by decide)

/-- C4.  The claim says out-of-bounds disk pixels are clipped in both
dimensions against the frame's height-by-width bounds and the write never
raises.  The code passes `shape=video_array.shape[1:2]` (logger.py line 102),
a one-element tuple `(H,)`, so numpy broadcasting clips both coordinates
against `H - 1` instead of `(H - 1, W - 1)`.  On a 4×2 frame (height 4,
width 2) with keypoint `(x, y) = (2, 1)` and radius 2, the rasterized disk
contains pixel `(1, 3)` whose column 3 exceeds the width: the assignment
`video_array[i][rr, cc] = (1, 1, 1)` raises `IndexError` (`none`) instead of
clipping. -/
theorem draw_video_with_kp_shape_bug :
    (draw_video_with_kp ⟨2, true⟩ c4Video [[(2, 1)]]).2 = none ∧
    (1, 3) ∈ draw_circle 1 2 2 [4] ∧
    c4Video.length = 1 ∧ (c4Video.getD 0 []).length = 4 ∧
    ((c4Video.getD 0 []).getD 0 []).length = 2 := by
  have hceil1 : (⌈(1 : ℚ) - |(2 : ℚ)|⌉ : ℤ) = -1 := by
    rw [show (1 : ℚ) - |(2 : ℚ)| = ((-1 : ℤ) : ℚ) by norm_num]
    exact Int.ceil_intCast _
  have hceil2 : (⌈(2 : ℚ) - |(2 : ℚ)|⌉ : ℤ) = 0 := by
    rw [show (2 : ℚ) - |(2 : ℚ)| = ((0 : ℤ) : ℚ) by norm_num]
    exact Int.ceil_intCast _
  have hfl1 : (⌊(1 : ℚ) + |(2 : ℚ)|⌋ : ℤ) = 3 := by
    rw [show (1 : ℚ) + |(2 : ℚ)| = ((3 : ℤ) : ℚ) by norm_num]
    exact Int.floor_intCast _
  have hfl2 : (⌊(2 : ℚ) + |(2 : ℚ)|⌋ : ℤ) = 4 := by
    rw [show (2 : ℚ) + |(2 : ℚ)| = ((4 : ℤ) : ℚ) by norm_num]
    exact Int.floor_intCast _
  have hcirc : draw_circle 1 2 2 [4] =
      [(0, 1), (0, 2), (0, 3), (1, 1), (1, 2), (1, 3), (2, 1), (2, 2), (2, 3)] := by
    simp only [draw_circle, hceil1, hceil2, hfl1, hfl2]
    norm_num
    rw [show intRange 0 3 = [0, 1, 2, 3] from by decide]
    norm_num [List.filter_cons, decide_eq_true_eq]
  have hsp : setPixelsWhite c4Frame
      [(0, 1), (0, 2), (0, 3), (1, 1), (1, 2), (1, 3), (2, 1), (2, 2), (2, 3)] =
      none := by decide
  have hdf : drawFrame ⟨2, true⟩ 4 c4Frame [(2, 1)] = none := by
    rw [drawFrame, List.foldlM_cons]
    show (setPixelsWhite c4Frame (draw_circle 1 2 2 [4])).bind _ = none
    rw [hcirc, hsp]
    rfl
  refine ⟨?_, by rw [hcirc]; decide, by decide, by decide, by decide⟩
  show (if c4Video.length ≤ [[((2 : ℚ), (1 : ℚ))]].length then
      (c4Video.zip [[((2 : ℚ), (1 : ℚ))]]).mapM fun p =>
        drawFrame ⟨2, true⟩ (shape1 c4Video) p.1 p.2
    else none) = none
  rw [if_pos (by decide)]
  show ([(c4Frame, [((2 : ℚ), (1 : ℚ))])].mapM fun p =>
    drawFrame ⟨2, true⟩ 4 p.1 p.2) = none
  rw [List.mapM_cons, hdf]
  rfl
